import Mathlib

/-!
Verification of the query-understanding core of the `biblio` library chatbot
(`src/chatbot/matcher.py` and `src/chatbot/core.py`), in the basic
(non-spaCy) mode: text normalization, category classification, synonym-based
query expansion, similarity scoring and threshold-driven retrieval.

Modelling conventions:
* Python strings are Lean `String` / `List Char`.  The character-level
  operations (`str.lower`, the `\w`/`\s` classes of `re`) are modelled over
  ASCII plus the Spanish accented letters this code manipulates.
* Python floats are modelled as exact rationals `ℚ`; `round(x, 3)` is
  modelled as exact half-to-even rounding of `1000*x`.
* `difflib.SequenceMatcher.ratio` (standard library, not repository code) is
  embedded by its algorithm: total size of the recursively chosen longest
  matching blocks, scaled by `2/(len a + len b)`; the autojunk rule for
  strings of length ≥ 200 is included.
-/

namespace Biblio

/-- Association-list lookup used by the fixed character tables. -/
def tlookup : List (Char × Char) → Char → Option Char
  | [], _ => none
  | p :: ps, c => if c = p.1 then some p.2 else tlookup ps c

/-- `str.lower` on the modelled character universe: ASCII `A`–`Z` plus the
uppercase accented letters used by this code; all other characters are
unchanged. -/
def lowerTable : List (Char × Char) :=
  [('A','a'),('B','b'),('C','c'),('D','d'),('E','e'),('F','f'),('G','g'),
   ('H','h'),('I','i'),('J','j'),('K','k'),('L','l'),('M','m'),('N','n'),
   ('O','o'),('P','p'),('Q','q'),('R','r'),('S','s'),('T','t'),('U','u'),
   ('V','v'),('W','w'),('X','x'),('Y','y'),('Z','z'),
   ('Á','á'),('É','é'),('Í','í'),('Ó','ó'),('Ú','ú'),('Ü','ü'),('Ñ','ñ')]

def pyLower (c : Char) : Char := (tlookup lowerTable c).getD c

/-- The accent-folding table of `normalize_text` (matcher.py:77-80). -/
def foldTable : List (Char × Char) :=
  [('á','a'),('é','e'),('í','i'),('ó','o'),('ú','u'),('ü','u'),('ñ','n')]

def foldChar (c : Char) : Char := (tlookup foldTable c).getD c

/-- The `\s` class of `re` (ASCII whitespace). -/
def isSpaceChar (c : Char) : Bool :=
  c = ' ' || c = '\t' || c = '\n' || c = '\r' || c = '\x0b' || c = '\x0c'

/-- The `\w` class of `re`, over the modelled character universe: ASCII
alphanumerics, underscore, and the Spanish accented letters. -/
def isWordChar (c : Char) : Bool :=
  c.isAlphanum || c = '_' ||
    (['á','é','í','ó','ú','ü','ñ','Á','É','Í','Ó','Ú','Ü','Ñ'].contains c)

/-- Fuel-indexed scanner for `str.replace`; every step consumes at least one
character, so `fuel = l.length` makes the fuel irrelevant.  (Structural
recursion on the fuel keeps the definition kernel-reducible.) -/
def replaceAllGo (pat rep : List Char) : Nat → List Char → List Char
  | 0, l => l
  | _ + 1, [] => []
  | fuel + 1, c :: cs =>
    if 0 < pat.length ∧ pat.isPrefixOf (c :: cs) then
      rep ++ replaceAllGo pat rep fuel ((c :: cs).drop pat.length)
    else
      c :: replaceAllGo pat rep fuel cs

/-- `str.replace pat rep`: replace every non-overlapping occurrence of `pat`
left to right. -/
def replaceAll (pat rep : List Char) (l : List Char) : List Char :=
  replaceAllGo pat rep l.length l

/-- The `problematic_synonyms` substitutions of `normalize_text`
(matcher.py:66-74), applied in dict order.  The `if problematic in text`
guard in the source is redundant: replacing an absent pattern is the
identity. -/
def replaceProb (l : List Char) : List Char :=
  replaceAll "tomar".data "prestar".data
    (replaceAll "obtener".data "reservar".data
      (replaceAll "conseguir".data "reservar".data l))

/-- `re.sub(r'[^\w\s]', ' ', text)`: each character that is neither a word
character nor whitespace becomes a single space. -/
def punctChar (c : Char) : Char :=
  if isWordChar c || isSpaceChar c then c else ' '

/-- Scanner for `re.sub(r'\s+', ' ', text)`; the flag records whether the
current position is inside a whitespace run whose single `' '` has already
been emitted. -/
def collapseGo : Bool → List Char → List Char
  | _, [] => []
  | inRun, c :: cs =>
    if isSpaceChar c then
      if inRun then collapseGo true cs else ' ' :: collapseGo true cs
    else c :: collapseGo false cs

/-- `re.sub(r'\s+', ' ', text)`: collapse every whitespace run to one space. -/
def collapseL (l : List Char) : List Char := collapseGo false l

/-- `str.strip()`: drop whitespace from both ends. -/
def pyStripL (l : List Char) : List Char :=
  (l.dropWhile isSpaceChar).rdropWhile isSpaceChar

/-- `QueryMatcher.normalize_text` (matcher.py:55-88): lowercase, substitute
the problematic synonyms, fold accents, turn non-word characters into
spaces, collapse whitespace and strip. -/
def normalizeL (l : List Char) : List Char :=
  pyStripL (collapseL (((replaceProb (l.map pyLower)).map foldChar).map punctChar))

def normalize_text (s : String) : String := ⟨normalizeL s.data⟩

/-- `str.split()`: split on whitespace runs, dropping empty pieces. -/
def pySplit (s : String) : List String :=
  ((s.data.splitOnP isSpaceChar).filter (fun w => w ≠ [])).map
    (fun w => (⟨w⟩ : String))

def wordSet (s : String) : Finset String := (pySplit s).toFinset

/-- `QueryMatcher.stop_words` (matcher.py:12-25), verbatim. -/
def stopWords : List String :=
  ["cómo", "cuál", "dónde", "qué", "cuánto", "cuánta", "cuántos", "cuántas",
   "para", "por", "con", "sin", "sobre", "bajo", "entre", "hacia", "desde",
   "se", "un", "una", "unos", "unas", "el", "la", "los", "las", "lo",
   "de", "del", "al", "y", "o", "pero", "a", "en", "que", "es", "son",
   "este", "esta", "estos", "estas", "ese", "esa", "esos", "esas",
   "me", "te", "nos", "os", "le", "les", "mi", "tu", "su", "nuestro",
   "vuestro", "sus", "muy", "mas", "más", "menos", "tan", "tanto",
   "como", "cuando", "donde", "mientras", "aunque", "porque", "si",
   "sí", "no", "también", "además", "entonces", "luego", "ahora",
   "antes", "después", "siempre", "nunca", "a veces", "quizás",
   "conseguir", "obtener", "tener", "hacer", "usar", "utilizar",
   "necesitar", "querer", "poder", "deber", "saber", "conocer"]

def stopSet : Finset String := stopWords.toFinset

/-- The fixed critical-word set of `calculate_similarity` (matcher.py:157). -/
def criticalSet : Finset String := {"cubiculo", "libro", "computadora"}

/-- The action-verb bonus set of `calculate_similarity` (matcher.py:186). -/
def actionVerbs : Finset String := {"reservar", "prestar", "usar", "devolver"}

/-! ### `difflib.SequenceMatcher.ratio`

Stdlib code, embedded by its algorithm: `b2j` char-position index with the
autojunk rule, the longest-matching-block dynamic program, the recursive
block decomposition, and `2*M/T`. -/

def b2j (b : List Char) (c : Char) : List Nat :=
  let idxs := (List.range b.length).filter (fun j => b.getD j ' ' = c)
  if 200 ≤ b.length ∧ b.length / 100 + 1 < idxs.length then [] else idxs

structure FlmSt where
  besti : Nat
  bestj : Nat
  bestsize : Nat
  j2len : List (Nat × Nat)

def nlookup : List (Nat × Nat) → Nat → Nat
  | [], _ => 0
  | p :: ps, j => if j = p.1 then p.2 else nlookup ps j

/-- `SequenceMatcher.find_longest_match` on the range
`a[alo:ahi]`, `b[blo:bhi]` (no junk for the short strings involved, so the
junk-extension loops are no-ops). -/
def flm (a b : List Char) (alo ahi blo bhi : Nat) : Nat × Nat × Nat :=
  let fin := (List.range' alo (ahi - alo)).foldl (fun (st : FlmSt) i =>
    let js := (b2j b (a.getD i ' ')).filter
      (fun j => decide (blo ≤ j) && decide (j < bhi))
    let upd := js.foldl (fun (pr : List (Nat × Nat) × FlmSt) j =>
      let k := (if j = 0 then 0 else nlookup pr.2.j2len (j - 1)) + 1
      let st' := if pr.2.bestsize < k then
          { pr.2 with besti := i + 1 - k, bestj := j + 1 - k, bestsize := k }
        else pr.2
      ((j, k) :: pr.1, st')) ([], st)
    { upd.2 with j2len := upd.1 }) ⟨alo, blo, 0, []⟩
  (fin.besti, fin.bestj, fin.bestsize)

/-- Total size of the matching blocks (`get_matching_blocks` recursion);
`fuel` dominates the recursion depth. -/
def matchTotal (a b : List Char) : Nat → Nat → Nat → Nat → Nat → Nat
  | 0, _, _, _, _ => 0
  | fuel + 1, alo, ahi, blo, bhi =>
    let r := flm a b alo ahi blo bhi
    if r.2.2 = 0 then 0
    else matchTotal a b fuel alo r.1 blo r.2.1 + r.2.2 +
         matchTotal a b fuel (r.1 + r.2.2) ahi (r.2.1 + r.2.2) bhi

/-- `SequenceMatcher(None, a, b).ratio()` as an exact rational. -/
def ratioQ (a b : List Char) : ℚ :=
  if a.length + b.length = 0 then 1
  else 2 * (matchTotal a b (a.length + b.length + 1) 0 a.length 0 b.length : ℚ) /
       ((a.length : ℚ) + (b.length : ℚ))

/-! ### `QueryMatcher.calculate_similarity` (matcher.py:135-201) -/

def criticalOf (s : String) : Finset String :=
  wordSet (normalize_text s) ∩ criticalSet

/-- One (query, phrase) iteration of the similarity loop: `none` means the
pair is skipped (`continue`), `some c` is the floored combined score. -/
def simPair (query phrase : String) : Option ℚ :=
  if phrase = "" then none
  else
    let qn := normalize_text query
    let pn := normalize_text phrase
    let qw := wordSet qn
    let pw := wordSet pn
    let cq := qw ∩ criticalSet
    let cp := pw ∩ criticalSet
    if cq ≠ ∅ ∧ cp ≠ ∅ ∧ cq ≠ cp then none
    else
      let qc := qw \ stopSet
      let pc := pw \ stopSet
      let ks : ℚ := if qc ≠ ∅ ∧ pc ≠ ∅ then
          (if 0 < (qc ∪ pc).card then ((qc ∩ pc).card : ℚ) / ((qc ∪ pc).card : ℚ)
           else 0)
        else 0
      let ts := ratioQ qn.data pn.data
      let bonus0 : ℚ := ((qc ∩ pc ∩ actionVerbs).card : ℚ) * (5 / 100)
      let bonus : ℚ := if cq ≠ ∅ ∧ cq ∩ pw = ∅ then bonus0 - 3 / 10 else bonus0
      some (max 0 ((7 / 10) * ks + (2 / 10) * ts + bonus))

/-- Accumulate one pair into the running maximum (`continue` on a skipped
pair, `if combined > max_similarity` otherwise). -/
def simStep (q : String) (a : ℚ) (p : String) : ℚ :=
  match simPair q p with
  | none => a
  | some c => if a < c then c else a

/-- The running-maximum fold over all (query, phrase) pairs. -/
def simFold (qs ps : List String) : ℚ :=
  qs.foldl (fun acc q => if q = "" then acc else ps.foldl (simStep q) acc) 0

def calculate_similarity (queries target_phrases : List String) : ℚ :=
  if queries = [] ∨ target_phrases = [] then 0
  else min (simFold queries target_phrases) 1

/-! ### Synonyms and `expand_with_synonyms` (matcher.py:36-133) -/

/-- The loaded synonym dictionary, word → list of synonyms. -/
def Syn : Type := String → Option (List String)

/-- `QueryMatcher.exclusive_words` (matcher.py:28-32).  Declared by the
source with the comment that these words may never be synonyms across
categories; the source never consults it. -/
def exclusive_words : List (String × List String) :=
  [("libro", ["computadora", "cubiculo", "equipo", "sala"]),
   ("computadora", ["libro", "cubiculo", "texto", "obra"]),
   ("cubiculo", ["libro", "computadora", "texto", "equipo"])]

/-- `QueryMatcher.clean_synonyms` (matcher.py:49-53): the only load-time
sanitization is removing `"prestar"` from the synonym list of
`"conseguir"` (first occurrence, as `list.remove` does). -/
def cleanSynonyms (s : Syn) : Syn :=
  fun w => if w = "conseguir" then (s "conseguir").map (fun l => l.erase "prestar")
           else s w

def joinSpace (ws : List String) : String := String.intercalate " " ws

/-- The final dedup loop of `expand_with_synonyms`, keeping first
occurrences in order. -/
def pyDedup (l : List String) : List String :=
  l.foldl (fun acc q => if q ∈ acc then acc else acc ++ [q]) []

/-- `QueryMatcher.expand_with_synonyms` (matcher.py:90-133). -/
def expand_with_synonyms (syn : Syn) (query : String) : List String :=
  let normalized := normalize_text query
  if normalized = "" then [""]
  else
    let words := pySplit normalized
    let ckw : List String := ["cubiculo", "libro", "computadora"]
    let withSubs := (List.range words.length).foldl (fun acc i =>
      let word := words.getD i ""
      if word ∈ ckw then acc
      else
        match syn word with
        | some syns =>
          if 2 < word.length then
            acc ++ ((syns.take 1).map (fun s => joinSpace (words.set i s)))
          else acc
        | none => acc) [normalized]
    let important := words.filter (fun w => w ∉ stopWords ∨ w ∈ ckw)
    let allQ := if important ≠ [] ∧ joinSpace important ≠ normalized then
        withSubs ++ [joinSpace important]
      else withSubs
    pyDedup allQ

/-! ### `ChatBot` configuration and categorization (core.py:31-61, 126-245),
basic (non-spaCy) mode. -/

structure CategoryData where
  palabras : List String
  peso : ℚ
  exclusivas : List String
deriving DecidableEq, Repr

/-- `ChatBot.category_keywords` (core.py:31-61), in dict insertion order. -/
def categoriesList : List (String × CategoryData) :=
  [("books",
    ⟨["libro", "texto", "volumen", "obra", "lectura", "novela",
      "autor", "título", "editorial", "préstamo", "devolución",
      "bibliografía", "referencia", "colección", "página"], 1,
     ["libro", "texto", "volumen", "novela", "autor"]⟩),
   ("computers",
    ⟨["computadora", "ordenador", "pc", "equipo", "software",
      "hardware", "internet", "impresora", "digital", "teclado",
      "monitor", "programa", "aplicación", "red", "wifi", "online"], 1,
     ["computadora", "ordenador", "pc", "software", "hardware"]⟩),
   ("cubicles",
    ⟨["cubiculo", "sala", "espacio", "cabina", "estudio",
      "silencioso", "grupo", "reservar", "área", "individual",
      "privado", "silenciosa", "trabajo", "concentración"], 1,
     ["cubiculo", "cabina", "silencioso", "privado"]⟩),
   ("general",
    ⟨["horario", "hora", "abrir", "cerrar", "baño", "wc",
      "servicio", "ubicación", "carné", "membresía", "impresión",
      "wifi", "información", "ayuda", "contacto", "dirección",
      "teléfono", "email", "normas", "reglamento", "acceso"], 7/10,
     ["baño", "wc", "horario", "abrir", "cerrar"]⟩)]

/-- Python substring test `p in l`. -/
def isSub : List Char → List Char → Bool
  | p, [] => p.isEmpty
  | p, c :: cs => p.isPrefixOf (c :: cs) || isSub p cs

/-- The exclusive-keyword short-circuit of `categorize_question`
(core.py:136-145): first category, in insertion order, one of whose
(normalized) exclusive keywords occurs as a substring of the normalized
question. -/
def exclusiveHit (qn : String) : Option (String × ℚ) :=
  categoriesList.findSome? (fun cd =>
    if cd.2.exclusivas.any (fun palabra => isSub (normalize_text palabra).data qn.data)
    then some (cd.1, 1)
    else none)

/-- One keyword's contribution to a category score in the traditional
weighted scoring (core.py:201-223): 1.5×weight at the start of the text,
1×weight word-bounded or at the end, 0.7×weight as a bare substring. -/
def keywordScore (qn : String) (w : ℚ) (kn : String) : ℚ :=
  if isSub kn.data qn.data then
    if (kn ++ " ").data.isPrefixOf qn.data then w * (3 / 2)
    else if isSub (" " ++ kn ++ " ").data qn.data then w
    else if (" " ++ kn).data.isSuffixOf qn.data then w
    else w * (7 / 10)
  else 0

def categoryScore (qn : String) (d : CategoryData) : ℚ :=
  d.palabras.foldl (fun acc k => acc + keywordScore qn d.peso (normalize_text k)) 0

/-- Python `max(scores, key=scores.get)`: first maximal entry in iteration
order. -/
def pickBest : List (String × ℚ) → String × ℚ
  | [] => ("general", 0)
  | x :: xs => xs.foldl (fun best y => if best.2 < y.2 then y else best) x

/-- `sum(data["peso"] * 3 for ...)` = 11.1 (core.py:239). -/
def maxPossible : ℚ := categoriesList.foldl (fun acc cd => acc + cd.2.peso * 3) 0

/-- The traditional weighted-scoring winner (core.py:192-230): the scores
list in category order, reduced by Python `max`. -/
def bestScored (qn : String) : String × ℚ :=
  pickBest (categoriesList.map (fun cd => (cd.1, categoryScore qn cd.2)))

/-- `ChatBot.categorize_question` (core.py:126-245) in basic mode (the
spaCy branch is disabled). -/
def categorize_question (question : String) : String × ℚ :=
  match exclusiveHit (normalize_text question) with
  | some r => r
  | none =>
    if (bestScored (normalize_text question)).2 < 1 / 2 then ("general", 1 / 2)
    else ((bestScored (normalize_text question)).1,
          min ((bestScored (normalize_text question)).2 / maxPossible) 1)

/-! ### Knowledge base, retrieval and orchestration
(knowledge_base.py, core.py:345-489), basic mode. -/

structure Rule where
  preguntas : List String
  respuesta : String
deriving DecidableEq, Repr

/-- The post-load knowledge state: per category, rules in insertion order. -/
structure Knowledge where
  general : List (String × Rule)
  books : List (String × Rule)
  computers : List (String × Rule)
  cubicles : List (String × Rule)
deriving DecidableEq, Repr

def Knowledge.get (kb : Knowledge) (c : String) : List (String × Rule) :=
  if c = "general" then kb.general
  else if c = "books" then kb.books
  else if c = "computers" then kb.computers
  else if c = "cubicles" then kb.cubicles
  else []

/-- `ChatBot.search_in_category` (core.py:345-369), basic mode: best rule by
strict improvement, so the first rule wins ties. -/
def search_in_category (kb : Knowledge) (category : String) (expanded : List String) :
    Option String × ℚ :=
  let knowledge := kb.get category
  if knowledge = [] then (none, 0)
  else knowledge.foldl (fun best kv =>
    let conf := calculate_similarity expanded kv.2.preguntas
    if best.2 < conf then (some kv.2.respuesta, conf) else best) (none, 0)

/-- `category_thresholds` with its `.get(category, 0.4)` default
(core.py:414-422). -/
def thresholdFor (category : String) : ℚ :=
  if category = "books" then 2 / 5
  else if category = "computers" then 2 / 5
  else if category = "cubicles" then 2 / 5
  else if category = "general" then 3 / 10
  else 2 / 5

/-- `ChatBot.get_fallback_response` (core.py:467-489); the keyword sniffing
works on the lowercased raw question (`ql` in the source). -/
def gfr (category : String) (ql : List Char) : String :=
  if isSub "libro".data ql || isSub "texto".data ql then
    "Para préstamos de libros, presenta tu carné en recepción. Se permiten hasta 3 libros por 15 días."
  else if isSub "cubiculo".data ql || isSub "sala".data ql || isSub "cabina".data ql then
    "Para reservar cubículos, acércate a la recepción con tu carné. Se permite 1 reserva por día de máximo 3 horas."
  else if isSub "computadora".data ql || isSub "ordenador".data ql then
    "Las computadoras están disponibles por orden de llegada. Máximo 2 horas de uso. Presenta tu carné."
  else if category = "books" then
    "Información sobre libros disponible en recepción. Horario de atención: 8 AM a 6 PM."
  else if category = "computers" then
    "Consulta las reglas de uso de computadoras en el área de tecnología."
  else if category = "cubicles" then
    "Para reservar cubículos, visita la recepción con identificación."
  else "No he entendido la pregunta, ¿podrías reformularla?."

def get_fallback_response (category : String) (question : String) : String :=
  gfr category (question.data.map pyLower)

/-- The seven fixed strings `get_fallback_response` can return. -/
def fallbackStrings : List String :=
  ["Para préstamos de libros, presenta tu carné en recepción. Se permiten hasta 3 libros por 15 días.",
   "Para reservar cubículos, acércate a la recepción con tu carné. Se permite 1 reserva por día de máximo 3 horas.",
   "Las computadoras están disponibles por orden de llegada. Máximo 2 horas de uso. Presenta tu carné.",
   "Información sobre libros disponible en recepción. Horario de atención: 8 AM a 6 PM.",
   "Consulta las reglas de uso de computadoras en el área de tecnología.",
   "Para reservar cubículos, visita la recepción con identificación.",
   "No he entendido la pregunta, ¿podrías reformularla?."]

structure BestMatch where
  answer : Option String
  conf : ℚ
  source : String
deriving DecidableEq, Repr

/-- The search in the categorized category over the expanded queries
(core.py:407-408). -/
def firstSearch (kb : Knowledge) (syn : Syn) (question : String) :
    Option String × ℚ :=
  search_in_category kb (categorize_question (normalize_text question)).1
    (expand_with_synonyms syn (normalize_text question))

/-- The fallback search in `general` (core.py:429). -/
def genSearch (kb : Knowledge) (syn : Syn) (question : String) :
    Option String × ℚ :=
  search_in_category kb "general" (expand_with_synonyms syn (normalize_text question))

/-- Steps 2-7 of `ChatBot.process_question` (core.py:382-437): categorize,
expand, search the chosen category, and fall back to searching `general`
when below the category threshold, switching only on a > 0.1 margin. -/
def bestMatch (kb : Knowledge) (syn : Syn) (question : String) : BestMatch :=
  if (firstSearch kb syn question).2 <
      thresholdFor (categorize_question (normalize_text question)).1 then
    if (firstSearch kb syn question).2 + 1 / 10 < (genSearch kb syn question).2 then
      ⟨(genSearch kb syn question).1, (genSearch kb syn question).2, "general"⟩
    else ⟨(firstSearch kb syn question).1, (firstSearch kb syn question).2,
          (categorize_question (normalize_text question)).1⟩
  else ⟨(firstSearch kb syn question).1, (firstSearch kb syn question).2,
        (categorize_question (normalize_text question)).1⟩

/-- Python `round` to an integer: half-to-even. -/
def halfEven (r : ℚ) : ℤ :=
  if r - Int.floor r < 1 / 2 then Int.floor r
  else if 1 / 2 < r - Int.floor r then Int.floor r + 1
  else if 2 ∣ Int.floor r then Int.floor r else Int.floor r + 1

/-- `round(x, 3)` on the exact rational value. -/
def pyRound3 (x : ℚ) : ℚ := (halfEven (x * 1000) : ℚ) / 1000

structure PResult where
  answer : Option String
  confidence : ℚ
  source : String
  mode : String
  details : Option (ℚ × ℕ)
deriving DecidableEq, Repr

/-- `ChatBot.process_question` (core.py:371-465) in basic mode: blank-input
guard, best match with threshold fallback (`bestMatch`), the 0.25-floor
canned fallback, and the final confidence blend
`min(best * (0.5 + 0.5 * category_confidence), 1)` rounded to 3 digits. -/
def process_question (kb : Knowledge) (syn : Syn) (question : String) : PResult :=
  if question = "" ∨ pyStripL question.data = [] then
    ⟨some "Haz una pregunta sobre los servicios de la biblioteca.", 0, "general",
     "basic", none⟩
  else
    ⟨(if (bestMatch kb syn question).conf < 1 / 4 then
        some (get_fallback_response (bestMatch kb syn question).source question)
      else (bestMatch kb syn question).answer),
     pyRound3 (min ((if (bestMatch kb syn question).conf < 1 / 4 then (1 / 4 : ℚ)
          else (bestMatch kb syn question).conf) *
        (1 / 2 + (categorize_question (normalize_text question)).2 * (1 / 2))) 1),
     (bestMatch kb syn question).source, "basic",
     some (pyRound3 (categorize_question (normalize_text question)).2,
       (expand_with_synonyms syn (normalize_text question)).length)⟩

/-! ### Concrete states used by witnesses and counterexamples. -/

/-- No synonym file loaded (`self.synonyms = {}`). -/
def synNone : Syn := fun _ => none

/-- All four categories empty (the degraded state when no knowledge file
loads). -/
def kbEmpty : Knowledge := ⟨[], [], [], []⟩

/-- A knowledge state with one cubicles rule scoring between 0.35 and 0.4
against the question `"cubiculo azul gratis"`, and one general rule
matching it exactly. -/
def kbC7 : Knowledge :=
  ⟨[("g1", ⟨["cubiculo azul gratis"], "GEN"⟩)], [], [],
   [("r1", ⟨["cubiculo azul noche del hoy"], "CUB"⟩)]⟩

/-- A knowledge state whose only cubicles rule matches
`"cubiculo azul gratis"` exactly (score 0.9). -/
def kbC7w : Knowledge :=
  ⟨[], [], [], [("r1", ⟨["cubiculo azul gratis"], "CUB"⟩)]⟩

/-- The synonym dictionary `{"libro": ["computadora"]}`. -/
def synConflict : Syn :=
  fun w => if w = "libro" then some ["computadora"] else none

/-! ## Theorems -/

/-- Syntactic projection lemmas, used to avoid definitional unfolding of
large terms in proofs. -/
theorem bmk_answer (a : Option String) (b : ℚ) (c : String) :
    (BestMatch.mk a b c).answer = a := rfl

theorem bmk_conf (a : Option String) (b : ℚ) (c : String) :
    (BestMatch.mk a b c).conf = b := rfl

theorem bmk_source (a : Option String) (b : ℚ) (c : String) :
    (BestMatch.mk a b c).source = c := rfl

theorem pmk_answer (a : Option String) (b : ℚ) (c d : String)
    (e : Option (ℚ × ℕ)) : (PResult.mk a b c d e).answer = a := rfl

theorem pmk_confidence (a : Option String) (b : ℚ) (c d : String)
    (e : Option (ℚ × ℕ)) : (PResult.mk a b c d e).confidence = b := rfl

theorem pmk_source (a : Option String) (b : ℚ) (c d : String)
    (e : Option (ℚ × ℕ)) : (PResult.mk a b c d e).source = c := rfl

theorem pmk_details (a : Option String) (b : ℚ) (c d : String)
    (e : Option (ℚ × ℕ)) : (PResult.mk a b c d e).details = e := rfl

/-- An empty string has no critical words. -/
theorem criticalOf_empty : criticalOf "" = ∅ := by decide

/-- A pair whose two sides carry different singleton critical-word sets is
skipped by the cross-category guard. -/
theorem simPair_none_of_crossed (q p : String) (c1 c2 : String) (hne : c1 ≠ c2)
    (hq : criticalOf q = {c1}) (hp : criticalOf p = {c2}) :
    simPair q p = none := by
  have hpne : p ≠ "" := by
    intro h
    rw [h, criticalOf_empty] at hp
    exact (Finset.singleton_ne_empty c2) hp.symm
  have hcq : wordSet (normalize_text q) ∩ criticalSet = {c1} := hq
  have hcp : wordSet (normalize_text p) ∩ criticalSet = {c2} := hp
  simp only [simPair, if_neg hpne, hcq, hcp]
  rw [if_pos]
  exact ⟨Finset.singleton_ne_empty c1, Finset.singleton_ne_empty c2,
    fun h => hne (Finset.singleton_inj.mp h)⟩

/-- If every pair with `q` is skipped, the inner fold keeps its
accumulator. -/
theorem simInner_const (q : String) (ps : List String) (acc : ℚ)
    (h : ∀ p ∈ ps, simPair q p = none) :
    ps.foldl (simStep q) acc = acc := by
  induction ps generalizing acc with
  | nil => rfl
  | cons p ps ih =>
    have hstep : simStep q acc p = acc := by
      simp [simStep, h p (List.mem_cons_self p ps)]
    rw [List.foldl_cons, hstep]
    exact ih acc (fun r hr => h r (List.mem_cons_of_mem p hr))

/-- Claim C3: if every query variant has exactly the critical word of one
category and every example question exactly the critical word of a
different category, `calculate_similarity` skips every pair and returns
0.0 — incidental token overlap never produces a positive score across
categories. -/
theorem cross_category_guard_skips_all (queries phrases : List String)
    (c1 c2 : String) (_hc1 : c1 ∈ criticalSet) (_hc2 : c2 ∈ criticalSet)
    (hne : c1 ≠ c2)
    (hq : ∀ q ∈ queries, criticalOf q = {c1})
    (hp : ∀ p ∈ phrases, criticalOf p = {c2}) :
    calculate_similarity queries phrases = 0 := by
  unfold calculate_similarity
  by_cases hemp : queries = [] ∨ phrases = []
  · rw [if_pos hemp]
  · rw [if_neg hemp]
    have hfold : simFold queries phrases = 0 := by
      unfold simFold
      have : ∀ qs : List String, (∀ q ∈ qs, criticalOf q = {c1}) →
          qs.foldl (fun acc q => if q = "" then acc
            else phrases.foldl (simStep q) acc) 0 = 0 := by
        intro qs
        induction qs with
        | nil => intro _; rfl
        | cons q qs ih =>
          intro hmem
          rw [List.foldl_cons]
          have hbody : (if q = "" then (0 : ℚ)
              else phrases.foldl (simStep q) 0) = 0 := by
            by_cases hq0 : q = ""
            · rw [if_pos hq0]
            · rw [if_neg hq0]
              exact simInner_const q phrases 0 (fun p hpm =>
                simPair_none_of_crossed q p c1 c2 hne
                  (hmem q (List.mem_cons_self q qs)) (hp p hpm))
          rw [hbody]
          exact ih (fun r hr => hmem r (List.mem_cons_of_mem q hr))
      exact this queries hq
    rw [hfold]
    simp

/-- Witness for C3: a pure `libro` query list against pure `computadora`
examples scores exactly 0. -/
theorem cross_category_guard_skips_all_witness :
    ("libro" ∈ criticalSet ∧ "computadora" ∈ criticalSet ∧
     "libro" ≠ "computadora" ∧
     criticalOf "reservar libro" = {"libro"} ∧
     criticalOf "usar computadora" = {"computadora"} ∧
     criticalOf "computadora barata" = {"computadora"}) ∧
    calculate_similarity ["reservar libro"]
      ["usar computadora", "computadora barata"] = 0 :=
  ⟨⟨by decide, by decide, by decide, by decide, by decide, by decide⟩,
   cross_category_guard_skips_all ["reservar libro"]
     ["usar computadora", "computadora barata"] "libro" "computadora"
     (by decide) (by decide) (by decide) (by decide) (by decide)⟩

/-- A fold whose step never decreases the accumulator is bounded below by
its starting value. -/
theorem foldl_ge_init {α : Type} (f : ℚ → α → ℚ) (l : List α)
    (h : ∀ acc x, acc ≤ f acc x) (a : ℚ) : a ≤ l.foldl f a := by
  induction l generalizing a with
  | nil => exact le_refl a
  | cons x l ih => exact le_trans (h a x) (ih (f a x))

/-- A fold preserves any invariant its step preserves. -/
theorem foldl_preserve {α β : Type} (P : β → Prop) (f : β → α → β) (l : List α)
    (b : β) (hb : P b) (h : ∀ acc x, P acc → P (f acc x)) : P (l.foldl f b) := by
  induction l generalizing b with
  | nil => exact hb
  | cons x l ih => exact ih (f b x) (h b x hb)

theorem simStep_ge (q : String) (a : ℚ) (p : String) : a ≤ simStep q a p := by
  unfold simStep
  cases simPair q p with
  | none => exact le_refl a
  | some c =>
    by_cases hac : a < c
    · simpa [hac] using le_of_lt hac
    · simp [hac]

theorem simFold_nonneg (qs ps : List String) : 0 ≤ simFold qs ps := by
  unfold simFold
  refine foldl_ge_init _ qs (fun acc q => ?_) 0
  by_cases hq : q = ""
  · simp [hq]
  · simp only [if_neg hq]
    exact foldl_ge_init _ ps (fun a p => simStep_ge q a p) acc

theorem calculate_similarity_nonneg (qs ps : List String) :
    0 ≤ calculate_similarity qs ps := by
  unfold calculate_similarity
  by_cases hemp : qs = [] ∨ ps = []
  · rw [if_pos hemp]
  · rw [if_neg hemp]
    exact le_min (simFold_nonneg qs ps) zero_le_one

theorem calculate_similarity_le_one (qs ps : List String) :
    calculate_similarity qs ps ≤ 1 := by
  unfold calculate_similarity
  by_cases hemp : qs = [] ∨ ps = []
  · rw [if_pos hemp]; exact zero_le_one
  · rw [if_neg hemp]; exact min_le_right _ _

theorem search_conf_nonneg (kb : Knowledge) (c : String) (e : List String) :
    0 ≤ (search_in_category kb c e).2 := by
  unfold search_in_category
  by_cases hk : kb.get c = []
  · rw [if_pos hk]
  · rw [if_neg hk]
    refine foldl_preserve (fun (b : Option String × ℚ) => 0 ≤ b.2) _ _ _ (le_refl 0) ?_
    intro acc kv hacc
    by_cases hlt : acc.2 < calculate_similarity e kv.2.preguntas
    · simpa [hlt] using calculate_similarity_nonneg e kv.2.preguntas
    · simpa [hlt] using hacc

theorem search_conf_le_one (kb : Knowledge) (c : String) (e : List String) :
    (search_in_category kb c e).2 ≤ 1 := by
  unfold search_in_category
  by_cases hk : kb.get c = []
  · rw [if_pos hk]; exact zero_le_one
  · rw [if_neg hk]
    refine foldl_preserve (fun (b : Option String × ℚ) => b.2 ≤ 1) _ _ _ zero_le_one ?_
    intro acc kv hacc
    by_cases hlt : acc.2 < calculate_similarity e kv.2.preguntas
    · simpa [hlt] using calculate_similarity_le_one e kv.2.preguntas
    · simpa [hlt] using hacc

/-- A successful exclusive-keyword hit always carries confidence 1. -/
theorem exclusiveHit_snd (qn : String) (r : String × ℚ)
    (h : exclusiveHit qn = some r) : r.2 = 1 := by
  unfold exclusiveHit at h
  obtain ⟨cd, _hmem, hcd⟩ := List.exists_of_findSome?_eq_some h
  by_cases hany : cd.2.exclusivas.any
      (fun palabra => isSub (normalize_text palabra).data qn.data) = true
  · rw [if_pos hany] at hcd
    cases hcd
    rfl
  · rw [if_neg hany] at hcd
    cases hcd

theorem maxPossible_pos : (0 : ℚ) < maxPossible := by
  unfold maxPossible categoriesList
  simp only [List.foldl_cons, List.foldl_nil]
  norm_num

theorem categorize_conf_nonneg (q : String) :
    0 ≤ (categorize_question q).2 := by
  unfold categorize_question
  cases h : exclusiveHit (normalize_text q) with
  | some r =>
    have := exclusiveHit_snd (normalize_text q) r h
    simp only [this]
    norm_num
  | none =>
    simp only []
    by_cases hlow : (bestScored (normalize_text q)).2 < 1 / 2
    · rw [if_pos hlow]; norm_num
    · rw [if_neg hlow]
      push_neg at hlow
      exact le_min (div_nonneg (le_trans (by norm_num) hlow)
        (le_of_lt maxPossible_pos)) zero_le_one

theorem categorize_conf_le_one (q : String) :
    (categorize_question q).2 ≤ 1 := by
  unfold categorize_question
  cases h : exclusiveHit (normalize_text q) with
  | some r =>
    have := exclusiveHit_snd (normalize_text q) r h
    simp only [this]
    norm_num
  | none =>
    simp only []
    by_cases hlow : (bestScored (normalize_text q)).2 < 1 / 2
    · rw [if_pos hlow]; norm_num
    · rw [if_neg hlow]
      exact min_le_right _ _

/-- Lower bound for Python integer rounding. -/
theorem halfEven_ge (r : ℚ) (k : ℤ) (h : (k : ℚ) ≤ r) : k ≤ halfEven r := by
  unfold halfEven
  have hfl : k ≤ Int.floor r := Int.le_floor.mpr h
  split_ifs <;> omega

/-- Upper bound for Python integer rounding. -/
theorem halfEven_le (r : ℚ) (k : ℤ) (h : r ≤ (k : ℚ)) : halfEven r ≤ k := by
  unfold halfEven
  have hfl : Int.floor r ≤ k := by
    have := Int.floor_le_floor h
    rwa [Int.floor_intCast] at this
  split_ifs with h1 h2 h3
  · exact hfl
  · push_neg at h1
    have hlt : Int.floor r < k := by
      have : (Int.floor r : ℚ) < (k : ℚ) := by linarith
      exact_mod_cast this
    omega
  · exact hfl
  · push_neg at h1 h2
    have heq : r - Int.floor r = 1 / 2 := le_antisymm h2 h1
    have hlt : Int.floor r < k := by
      have : (Int.floor r : ℚ) < (k : ℚ) := by linarith
      exact_mod_cast this
    omega

theorem pyRound3_nonneg (x : ℚ) (h : 0 ≤ x) : 0 ≤ pyRound3 x := by
  unfold pyRound3
  have : (0 : ℤ) ≤ halfEven (x * 1000) :=
    halfEven_ge (x * 1000) 0 (by push_cast; linarith)
  positivity

theorem pyRound3_le_one (x : ℚ) (h : x ≤ 1) : pyRound3 x ≤ 1 := by
  unfold pyRound3
  have hk : halfEven (x * 1000) ≤ (1000 : ℤ) :=
    halfEven_le (x * 1000) 1000 (by push_cast; linarith)
  rw [div_le_one (by norm_num)]
  exact_mod_cast hk

theorem pyRound3_le_quarter (x : ℚ) (h : x ≤ 1 / 4) : pyRound3 x ≤ 1 / 4 := by
  unfold pyRound3
  have hk : halfEven (x * 1000) ≤ (250 : ℤ) :=
    halfEven_le (x * 1000) 250 (by push_cast; linarith)
  have : (halfEven (x * 1000) : ℚ) ≤ 250 := by exact_mod_cast hk
  linarith

/-- `bestMatch` returns either the `general` fallback search result or the
first (categorized) search result. -/
theorem bestMatch_eq_cases (kb : Knowledge) (syn : Syn) (q : String) :
    bestMatch kb syn q =
        ⟨(genSearch kb syn q).1, (genSearch kb syn q).2, "general"⟩ ∨
    bestMatch kb syn q =
        ⟨(firstSearch kb syn q).1, (firstSearch kb syn q).2,
         (categorize_question (normalize_text q)).1⟩ := by
  unfold bestMatch
  rcases Classical.em ((firstSearch kb syn q).2 <
      thresholdFor (categorize_question (normalize_text q)).1) with h1 | h1
  · rcases Classical.em ((firstSearch kb syn q).2 + 1 / 10 <
        (genSearch kb syn q).2) with h2 | h2
    · left; rw [if_pos h1, if_pos h2]
    · right; rw [if_pos h1, if_neg h2]
  · right; rw [if_neg h1]

theorem bestMatch_conf_nonneg (kb : Knowledge) (syn : Syn) (q : String) :
    0 ≤ (bestMatch kb syn q).conf := by
  rcases bestMatch_eq_cases kb syn q with h | h
  · rw [h, bmk_conf]
    exact search_conf_nonneg kb "general"
      (expand_with_synonyms syn (normalize_text q))
  · rw [h, bmk_conf]
    exact search_conf_nonneg kb (categorize_question (normalize_text q)).1
      (expand_with_synonyms syn (normalize_text q))

/-- Claim C4: for every input question the returned confidence lies in
[0, 1], and for all query-variant and example lists the similarity score
lies in [0, 1] (pair scores are floored at 0, the maximum is clamped at 1). -/
theorem confidence_and_similarity_bounds :
    (∀ (kb : Knowledge) (syn : Syn) (q : String),
       0 ≤ (process_question kb syn q).confidence ∧
       (process_question kb syn q).confidence ≤ 1) ∧
    (∀ queries phrases : List String,
       0 ≤ calculate_similarity queries phrases ∧
       calculate_similarity queries phrases ≤ 1) := by
  constructor
  · intro kb syn q
    unfold process_question
    by_cases hbl : q = "" ∨ pyStripL q.data = []
    · rw [if_pos hbl]
      exact ⟨le_refl 0, zero_le_one⟩
    · rw [if_neg hbl]
      have hfc0 : 0 ≤ (if (bestMatch kb syn q).conf < 1 / 4 then (1 / 4 : ℚ)
          else (bestMatch kb syn q).conf) := by
        split_ifs
        · norm_num
        · exact bestMatch_conf_nonneg kb syn q
      have hcc0 : 0 ≤ (categorize_question (normalize_text q)).2 :=
        categorize_conf_nonneg (normalize_text q)
      constructor
      · exact pyRound3_nonneg _
          (le_min (mul_nonneg hfc0 (by linarith)) zero_le_one)
      · exact pyRound3_le_one _ (min_le_right _ _)
  · intro queries phrases
    exact ⟨calculate_similarity_nonneg queries phrases,
           calculate_similarity_le_one queries phrases⟩

/-- `isSub` is Python's substring test: it decides list infix. -/
theorem isSub_iff (p l : List Char) : isSub p l = true ↔ p <:+: l := by
  induction l with
  | nil =>
    simp only [isSub, List.isEmpty_iff, List.infix_nil]
  | cons c cs ih =>
    simp only [isSub, Bool.or_eq_true, ih, List.infix_cons_iff,
      List.isPrefixOf_iff_prefix]

/-- The exclusive-keyword loop returns the first category in order with a
matching exclusive keyword: categories before it see no hit, the category
itself does. -/
theorem exclusiveHit_split (qn : String) (pre post : List (String × CategoryData))
    (cd : String × CategoryData) (hsplit : categoriesList = pre ++ cd :: post)
    (hhit : cd.2.exclusivas.any
      (fun palabra => isSub (normalize_text palabra).data qn.data) = true)
    (hpre : ∀ c ∈ pre, c.2.exclusivas.any
      (fun palabra => isSub (normalize_text palabra).data qn.data) = false) :
    exclusiveHit qn = some (cd.1, 1) := by
  unfold exclusiveHit
  rw [hsplit, List.findSome?_append]
  have h1 : pre.findSome? (fun cd => if cd.2.exclusivas.any
      (fun palabra => isSub (normalize_text palabra).data qn.data)
      then some (cd.1, (1 : ℚ)) else none) = none := by
    rw [List.findSome?_eq_none_iff]
    intro c hc
    rw [if_neg]
    simp [hpre c hc]
  rw [h1, Option.none_or, List.findSome?_cons_of_isSome]
  · rw [if_pos hhit]
  · rw [if_pos hhit]
    rfl

/-- In `categoriesList`, split as `pre ++ cd :: post`, the names in `pre`
differ from `cd`'s name. -/
theorem pre_names_ne (pre post : List (String × CategoryData))
    (cd : String × CategoryData) (hsplit : categoriesList = pre ++ cd :: post) :
    ∀ c ∈ pre, c.1 ≠ cd.1 := by
  have hnames : (categoriesList.map Prod.fst).Nodup := by decide
  rw [hsplit, List.map_append] at hnames
  have hdisj := List.disjoint_of_nodup_append hnames
  intro c hc heq
  exact hdisj (List.mem_map_of_mem Prod.fst hc)
    (heq ▸ List.mem_cons_self cd.1 (post.map Prod.fst))

/-- Claim C2 (amended): if a question contains one of a category's
(normalized) exclusive keywords and no exclusive keyword of any other
category, categorization returns that category with confidence exactly 1.0,
bypassing the weighted keyword scoring — however many non-exclusive
keywords of other categories the question contains. -/
theorem exclusive_override_unique (q : String) (cd : String × CategoryData)
    (hmem : cd ∈ categoriesList)
    (hhit : cd.2.exclusivas.any (fun palabra =>
      isSub (normalize_text palabra).data (normalize_text q).data) = true)
    (hothers : ∀ c ∈ categoriesList, c.1 ≠ cd.1 →
      c.2.exclusivas.any (fun palabra =>
        isSub (normalize_text palabra).data (normalize_text q).data) = false) :
    categorize_question q = (cd.1, 1) := by
  obtain ⟨pre, post, hsplit⟩ := List.append_of_mem hmem
  have hpre := pre_names_ne pre post cd hsplit
  have h := exclusiveHit_split (normalize_text q) pre post cd hsplit hhit
    (fun c hc => hothers c
      (hsplit ▸ List.mem_append_of_mem_left (cd :: post) hc) (hpre c hc))
  unfold categorize_question
  rw [h]

/-- Claim C10: the exclusive override is plain substring containment on the
normalized text, and categories are checked in the fixed order books,
computers, cubicles, general: whenever some exclusive keyword of the
category at one position occurs inside the normalized question (even
embedded in a longer word) and no exclusive keyword of an earlier category
does, that category is returned with confidence 1.0. -/
theorem exclusive_override_order (q : String)
    (pre post : List (String × CategoryData)) (cd : String × CategoryData)
    (hsplit : categoriesList = pre ++ cd :: post)
    (hhit : ∃ k ∈ cd.2.exclusivas,
      (normalize_text k).data <:+: (normalize_text q).data)
    (hpre : ∀ c ∈ pre, ∀ k ∈ c.2.exclusivas,
      ¬ (normalize_text k).data <:+: (normalize_text q).data) :
    categorize_question q = (cd.1, 1) := by
  have hhit' : cd.2.exclusivas.any (fun palabra =>
      isSub (normalize_text palabra).data (normalize_text q).data) = true := by
    rw [List.any_eq_true]
    obtain ⟨k, hk, hinf⟩ := hhit
    exact ⟨k, hk, (isSub_iff _ _).mpr hinf⟩
  have hpre' : ∀ c ∈ pre, c.2.exclusivas.any (fun palabra =>
      isSub (normalize_text palabra).data (normalize_text q).data) = false := by
    intro c hc
    rw [Bool.eq_false_iff]
    intro hany
    obtain ⟨k, hk, hsub⟩ := List.any_eq_true.mp hany
    exact hpre c hc k hk ((isSub_iff _ _).mp hsub)
  have h := exclusiveHit_split (normalize_text q) pre post cd hsplit hhit' hpre'
  unfold categorize_question
  rw [h]

/-- `get_fallback_response` always returns one of the seven fixed fallback
strings. -/
theorem get_fallback_mem (c : String) (q : String) :
    get_fallback_response c q ∈ fallbackStrings := by
  unfold get_fallback_response gfr
  split_ifs <;> decide

/-- Claim C7 (amended): the retrieval threshold for `cubicles` is 0.4, not
0.35.  When the chosen category is `cubicles` and the best rule score is
strictly above 0.4, the rule is accepted without the fallback search in
`general`: whatever the `general` rules contain, the result carries that
rule's answer, source `cubicles`, and the blended confidence of that score
alone. -/
theorem cubicles_threshold_04 (kb : Knowledge) (syn : Syn) (q : String)
    (cc : ℚ) (a : String) (s : ℚ)
    (hnb : ¬(q = "" ∨ pyStripL q.data = []))
    (hcat : categorize_question (normalize_text q) = ("cubicles", cc))
    (hsearch : firstSearch kb syn q = (some a, s))
    (hs : 2 / 5 < s) :
    process_question kb syn q =
      ⟨some a, pyRound3 (min (s * (1 / 2 + cc * (1 / 2))) 1), "cubicles", "basic",
       some (pyRound3 cc, (expand_with_synonyms syn (normalize_text q)).length)⟩ := by
  have hcat1 : (categorize_question (normalize_text q)).1 = "cubicles" := by rw [hcat]
  have hcat2 : (categorize_question (normalize_text q)).2 = cc := by rw [hcat]
  have hse1 : (firstSearch kb syn q).1 = some a := by rw [hsearch]
  have hse2 : (firstSearch kb syn q).2 = s := by rw [hsearch]
  have hth : thresholdFor "cubicles" = 2 / 5 := rfl
  have hbm : bestMatch kb syn q = ⟨some a, s, "cubicles"⟩ := by
    unfold bestMatch
    rw [hse1, hse2, hcat1, hth, if_neg (not_lt.mpr (le_of_lt hs))]
  have hq4 : ¬ (s < 1 / 4) := by
    push_neg
    linarith
  unfold process_question
  rw [if_neg hnb, hbm, bmk_conf, bmk_answer, bmk_source, hcat2,
    if_neg hq4, if_neg hq4]

/-- Claim C1 (amended): for any non-blank input whose best match confidence
(after the category search and the possible switch to `general`) falls
below 0.25, the answer is one of the fixed fallback strings and the
internal confidence is pinned to exactly 0.25; the confidence field of the
returned result is `round(min(0.25 × (0.5 + 0.5 × category_confidence), 1), 3)`,
which is at most 0.25 (and equals 0.25 only at category confidence 1),
rather than exactly 0.25 as the original claim states. -/
theorem fallback_pins_quarter (kb : Knowledge) (syn : Syn) (q : String)
    (hnb : ¬(q = "" ∨ pyStripL q.data = []))
    (hlow : (bestMatch kb syn q).conf < 1 / 4) :
    (process_question kb syn q).answer =
      some (get_fallback_response (bestMatch kb syn q).source q) ∧
    get_fallback_response (bestMatch kb syn q).source q ∈ fallbackStrings ∧
    (process_question kb syn q).confidence =
      pyRound3 (min ((1 / 4) *
        (1 / 2 + (categorize_question (normalize_text q)).2 * (1 / 2))) 1) ∧
    (process_question kb syn q).confidence ≤ 1 / 4 := by
  unfold process_question
  rw [if_neg hnb, pmk_answer, pmk_confidence, if_pos hlow, if_pos hlow]
  refine ⟨rfl, get_fallback_mem _ q, rfl, ?_⟩
  apply pyRound3_le_quarter
  have hcc1 : (categorize_question (normalize_text q)).2 ≤ 1 :=
    categorize_conf_le_one (normalize_text q)
  have hb : (1 / 4 : ℚ) *
      (1 / 2 + (categorize_question (normalize_text q)).2 * (1 / 2)) ≤ 1 / 4 := by
    nlinarith [categorize_conf_nonneg (normalize_text q)]
  exact le_trans (min_le_left _ _) hb

/-! ### Idempotence of `normalize_text` on problematic-word-free outputs
(claim C5).  The output of one pass is characterized character by character
and structurally; each stage of a second pass is then the identity. -/

theorem tlookup_mem (t : List (Char × Char)) (c v : Char)
    (h : tlookup t c = some v) : (c, v) ∈ t := by
  induction t with
  | nil => cases h
  | cons p ps ih =>
    by_cases hc : c = p.1
    · simp only [tlookup, if_pos hc] at h
      cases h
      subst hc
      exact Prod.mk.eta ▸ List.mem_cons_self p ps
    · simp only [tlookup, if_neg hc] at h
      exact List.mem_cons_of_mem p (ih h)

theorem pyLower_idem (c : Char) : pyLower (pyLower c) = pyLower c := by
  unfold pyLower
  cases h : tlookup lowerTable c with
  | none => simp [h]
  | some v =>
    have hall : ∀ p ∈ lowerTable, tlookup lowerTable p.2 = none := by decide
    have hnone : tlookup lowerTable v = none := hall (c, v) (tlookup_mem _ _ _ h)
    simp [h, hnone]

theorem foldChar_idem (c : Char) : foldChar (foldChar c) = foldChar c := by
  unfold foldChar
  cases h : tlookup foldTable c with
  | none => simp [h]
  | some v =>
    have hall : ∀ p ∈ foldTable, tlookup foldTable p.2 = none := by decide
    have hnone : tlookup foldTable v = none := hall (c, v) (tlookup_mem _ _ _ h)
    simp [h, hnone]

theorem pyLower_foldChar (c : Char) (hc : pyLower c = c) :
    pyLower (foldChar c) = foldChar c := by
  unfold foldChar
  cases h : tlookup foldTable c with
  | none => simpa using hc
  | some v =>
    have hall : ∀ p ∈ foldTable, pyLower p.2 = p.2 := by decide
    simpa using hall (c, v) (tlookup_mem _ _ _ h)

theorem space_not_word (c : Char) (h : isSpaceChar c = true) :
    isWordChar c = false := by
  simp only [isSpaceChar, Bool.or_eq_true, decide_eq_true_eq] at h
  rcases h with ((((h | h) | h) | h) | h) | h <;> subst h <;> decide

theorem mem_replaceAllGo (pat rep : List Char) (fuel : Nat) (l : List Char)
    (c : Char) (h : c ∈ replaceAllGo pat rep fuel l) : c ∈ l ∨ c ∈ rep := by
  induction fuel generalizing l with
  | zero => exact Or.inl h
  | succ fuel ih =>
    cases l with
    | nil => cases h
    | cons d ds =>
      simp only [replaceAllGo] at h
      split at h
      · rcases List.mem_append.mp h with hr | hrec
        · exact Or.inr hr
        · rcases ih _ hrec with hin | hr
          · exact Or.inl (List.mem_of_mem_drop hin)
          · exact Or.inr hr
      · rcases List.mem_cons.mp h with rfl | hrec
        · exact Or.inl (List.mem_cons_self _ _)
        · rcases ih _ hrec with hin | hr
          · exact Or.inl (List.mem_cons_of_mem _ hin)
          · exact Or.inr hr

theorem mem_replaceProb (l : List Char) (c : Char) (h : c ∈ replaceProb l) :
    c ∈ l ∨ c ∈ "reservar".data ∨ c ∈ "prestar".data := by
  unfold replaceProb replaceAll at h
  rcases mem_replaceAllGo _ _ _ _ _ h with h1 | hp
  · rcases mem_replaceAllGo _ _ _ _ _ h1 with h2 | hr
    · rcases mem_replaceAllGo _ _ _ _ _ h2 with h3 | hr
      · exact Or.inl h3
      · exact Or.inr (Or.inl hr)
    · exact Or.inr (Or.inl hr)
  · exact Or.inr (Or.inr hp)

theorem mem_collapseGo (b : Bool) (l : List Char) (c : Char)
    (h : c ∈ collapseGo b l) : (c ∈ l ∧ isSpaceChar c = false) ∨ c = ' ' := by
  induction l generalizing b with
  | nil => cases h
  | cons d ds ih =>
    simp only [collapseGo] at h
    by_cases hsd : isSpaceChar d = true
    · rw [if_pos hsd] at h
      cases b with
      | true =>
        simp only [if_pos] at h
        rcases ih true h with ⟨hm, hs⟩ | hsp
        · exact Or.inl ⟨List.mem_cons_of_mem _ hm, hs⟩
        · exact Or.inr hsp
      | false =>
        simp only [Bool.false_eq_true, if_false] at h
        rcases List.mem_cons.mp h with rfl | hrec
        · exact Or.inr rfl
        · rcases ih true hrec with ⟨hm, hs⟩ | hsp
          · exact Or.inl ⟨List.mem_cons_of_mem _ hm, hs⟩
          · exact Or.inr hsp
    · rw [if_neg hsd] at h
      rcases List.mem_cons.mp h with rfl | hrec
      · exact Or.inl ⟨List.mem_cons_self _ _, Bool.not_eq_true _ ▸ hsd⟩
      · rcases ih false hrec with ⟨hm, hs⟩ | hsp
        · exact Or.inl ⟨List.mem_cons_of_mem _ hm, hs⟩
        · exact Or.inr hsp

theorem mem_pyStrip (l : List Char) (c : Char) (h : c ∈ pyStripL l) : c ∈ l := by
  unfold pyStripL at h
  have h1 : c ∈ l.dropWhile isSpaceChar :=
    (List.rdropWhile_prefix isSpaceChar (l.dropWhile isSpaceChar)).sublist.subset h
  exact (List.dropWhile_suffix isSpaceChar).sublist.subset h1

theorem pyStripL_eq (l : List Char) :
    pyStripL l = (l.dropWhile isSpaceChar).rdropWhile isSpaceChar := rfl

theorem collapseGo_true_head (cs : List Char) (y : Char)
    (h : (collapseGo true cs).head? = some y) : isSpaceChar y = false := by
  induction cs with
  | nil => cases h
  | cons d ds ih =>
    simp only [collapseGo] at h
    by_cases hsd : isSpaceChar d = true
    · rw [if_pos hsd] at h
      simp only [if_pos] at h
      exact ih h
    · rw [if_neg hsd] at h
      simp only [List.head?_cons, Option.some.injEq] at h
      subst h
      exact Bool.not_eq_true _ ▸ hsd

theorem collapseGo_chain (b : Bool) (l : List Char) :
    List.Chain' (fun x y => ¬(isSpaceChar x = true ∧ isSpaceChar y = true))
      (collapseGo b l) := by
  induction l generalizing b with
  | nil => exact List.chain'_nil
  | cons d ds ih =>
    simp only [collapseGo]
    by_cases hsd : isSpaceChar d = true
    · rw [if_pos hsd]
      cases b with
      | true =>
        simp only [if_pos]
        exact ih true
      | false =>
        simp only [Bool.false_eq_true, if_false]
        refine List.chain'_cons'.mpr ⟨?_, ih true⟩
        intro y hy
        rintro ⟨-, hy2⟩
        rw [collapseGo_true_head ds y hy] at hy2
        cases hy2
    · rw [if_neg hsd]
      refine List.chain'_cons'.mpr ⟨?_, ih false⟩
      intro y _
      rintro ⟨h1, -⟩
      exact hsd h1

theorem pyStrip_part (l : List Char) : pyStripL l <:+: l := by
  obtain ⟨t, ht⟩ := List.rdropWhile_prefix isSpaceChar (l.dropWhile isSpaceChar)
  obtain ⟨s, hs⟩ := List.dropWhile_suffix (l := l) isSpaceChar
  refine ⟨s, t, ?_⟩
  rw [List.append_assoc, pyStripL_eq, ht, hs]

theorem chain_pyStrip (l : List Char)
    (h : List.Chain' (fun x y => ¬(isSpaceChar x = true ∧ isSpaceChar y = true)) l) :
    List.Chain' (fun x y => ¬(isSpaceChar x = true ∧ isSpaceChar y = true))
      (pyStripL l) :=
  List.Chain'.infix h (pyStrip_part l)

theorem collapseGo_id (n : List Char)
    (hc : ∀ c ∈ n, isSpaceChar c = true → c = ' ')
    (hch : List.Chain' (fun x y => ¬(isSpaceChar x = true ∧ isSpaceChar y = true)) n) :
    collapseGo false n = n ∧
      ((∀ d, n.head? = some d → isSpaceChar d = false) → collapseGo true n = n) := by
  induction n with
  | nil => exact ⟨rfl, fun _ => rfl⟩
  | cons c cs ih =>
    have hc' : ∀ x ∈ cs, isSpaceChar x = true → x = ' ' :=
      fun x hx => hc x (List.mem_cons_of_mem c hx)
    have hch' := (List.chain'_cons'.mp hch).2
    have hhd := (List.chain'_cons'.mp hch).1
    obtain ⟨ih1, ih2⟩ := ih hc' hch'
    by_cases hsc : isSpaceChar c = true
    · have hce : c = ' ' := hc c (List.mem_cons_self c cs) hsc
      have hhead : ∀ d, cs.head? = some d → isSpaceChar d = false := by
        intro d hd
        have := hhd d hd
        rcases Bool.eq_false_or_eq_true (isSpaceChar d) with htr | hf
        · exact absurd ⟨hsc, htr⟩ this
        · exact hf
      constructor
      · simp only [collapseGo, if_pos hsc, Bool.false_eq_true, if_false]
        rw [ih2 hhead, hce]
      · intro hh
        have := hh c rfl
        rw [hsc] at this
        cases this
    · constructor
      · simp only [collapseGo, if_neg hsc]
        rw [ih1]
      · intro _
        simp only [collapseGo, if_neg hsc]
        rw [ih1]

theorem pyStrip_idem (l : List Char) : pyStripL (pyStripL l) = pyStripL l := by
  have hdw : (pyStripL l).dropWhile isSpaceChar = pyStripL l := by
    cases hBc : pyStripL l with
    | nil => rfl
    | cons d ds =>
      have hd : isSpaceChar d = false := by
        obtain ⟨t, ht⟩ :=
          List.rdropWhile_prefix isSpaceChar (l.dropWhile isSpaceChar)
        have hA : l.dropWhile isSpaceChar = d :: (ds ++ t) := by
          rw [← ht, ← pyStripL_eq, hBc]
          simp
        have hid : (l.dropWhile isSpaceChar).dropWhile isSpaceChar =
            l.dropWhile isSpaceChar := List.dropWhile_idempotent isSpaceChar l
        rcases Bool.eq_false_or_eq_true (isSpaceChar d) with htr | hf
        · exfalso
          rw [hA, List.dropWhile_cons_of_pos htr] at hid
          have hle : ((ds ++ t).dropWhile isSpaceChar).length ≤ (ds ++ t).length :=
            (List.dropWhile_suffix isSpaceChar).sublist.length_le
          have hlen := congrArg List.length hid
          simp only [List.length_cons] at hlen
          omega
        · exact hf
      exact List.dropWhile_cons_of_neg (by simp [hd])
  rw [pyStripL_eq (pyStripL l), hdw, pyStripL_eq l]
  exact List.rdropWhile_idempotent isSpaceChar (l.dropWhile isSpaceChar)

/-- Every character of a normalization output is lowercase-stable,
accent-free, and a word character or a single space. -/
theorem normalizeL_char (l : List Char) :
    ∀ c ∈ normalizeL l, pyLower c = c ∧ foldChar c = c ∧
      (isWordChar c = true ∨ c = ' ') := by
  intro c hc
  have hc5 : c ∈ collapseL
      (((replaceProb (l.map pyLower)).map foldChar).map punctChar) :=
    mem_pyStrip _ c hc
  rcases mem_collapseGo false _ c hc5 with ⟨hc4, hns⟩ | rfl
  · obtain ⟨x, hx3, hpx⟩ := List.mem_map.mp hc4
    obtain ⟨y, hy2, hfy⟩ := List.mem_map.mp hx3
    have hylow : pyLower y = y := by
      rcases mem_replaceProb _ y hy2 with hy1 | hyr | hyp
      · obtain ⟨z, _, hz⟩ := List.mem_map.mp hy1
        rw [← hz]
        exact pyLower_idem z
      · exact (by decide : ∀ u ∈ "reservar".data, pyLower u = u) y hyr
      · exact (by decide : ∀ u ∈ "prestar".data, pyLower u = u) y hyp
    by_cases hk : (isWordChar x || isSpaceChar x) = true
    · have hcx : c = x := by
        rw [← hpx]
        unfold punctChar
        rw [if_pos hk]
      subst hcx
      have hword : isWordChar c = true := by
        rcases Bool.or_eq_true _ _ |>.mp hk with hw | hs
        · exact hw
        · rw [hns] at hs
          cases hs
      refine ⟨?_, ?_, Or.inl hword⟩
      · rw [← hfy]
        exact pyLower_foldChar y hylow
      · rw [← hfy]
        exact foldChar_idem y
    · exfalso
      have hsp : c = ' ' := by
        rw [← hpx]
        unfold punctChar
        rw [if_neg hk]
      rw [hsp] at hns
      cases hns
  · exact ⟨by decide, by decide, Or.inr rfl⟩

theorem punctChar_fix (c : Char) (h : isWordChar c = true ∨ c = ' ') :
    punctChar c = c := by
  rcases h with h | rfl
  · unfold punctChar
    rw [if_pos (by simp [h])]
  · decide

theorem replaceAllGo_id (pat rep : List Char) (fuel : Nat) (l : List Char)
    (h : ¬ pat <:+: l) : replaceAllGo pat rep fuel l = l := by
  induction fuel generalizing l with
  | zero => rfl
  | succ fuel ih =>
    cases l with
    | nil => rfl
    | cons c cs =>
      have hnp : ¬ (0 < pat.length ∧ pat.isPrefixOf (c :: cs)) := by
        rintro ⟨-, hp⟩
        obtain ⟨t, ht⟩ := List.isPrefixOf_iff_prefix.mp hp
        exact h ⟨[], t, by simpa using ht⟩
      simp only [replaceAllGo]
      rw [if_neg hnp, ih cs (fun hinf => h (List.infix_cons hinf))]

theorem replaceProb_id (l : List Char)
    (h1 : ¬ "conseguir".data <:+: l) (h2 : ¬ "obtener".data <:+: l)
    (h3 : ¬ "tomar".data <:+: l) : replaceProb l = l := by
  unfold replaceProb replaceAll
  rw [replaceAllGo_id _ _ _ _ h1, replaceAllGo_id _ _ _ _ h2,
    replaceAllGo_id _ _ _ _ h3]

/-- Claim C5 (amended): `normalize_text` is idempotent on every input whose
normalization contains none of the problematic words `conseguir`,
`obtener`, `tomar` as substrings.  (The substitution step runs before
accent folding, so folding can surface a problematic word — see the
counterexample `"tómar"` — and only then does a second pass differ.) -/
theorem normalize_idempotent_no_problematic (x : String)
    (h1 : ¬ "conseguir".data <:+: (normalize_text x).data)
    (h2 : ¬ "obtener".data <:+: (normalize_text x).data)
    (h3 : ¬ "tomar".data <:+: (normalize_text x).data) :
    normalize_text (normalize_text x) = normalize_text x := by
  have hchars := normalizeL_char x.data
  have hdata : (normalize_text x).data = normalizeL x.data := rfl
  rw [hdata] at h1 h2 h3
  have hchain : List.Chain'
      (fun a b => ¬(isSpaceChar a = true ∧ isSpaceChar b = true))
      (normalizeL x.data) :=
    chain_pyStrip
      (collapseL (((replaceProb (x.data.map pyLower)).map foldChar).map punctChar))
      (collapseGo_chain false _)
  have hstrip : pyStripL (normalizeL x.data) = normalizeL x.data :=
    pyStrip_idem
      (collapseL (((replaceProb (x.data.map pyLower)).map foldChar).map punctChar))
  show (⟨normalizeL (normalizeL x.data)⟩ : String) = ⟨normalizeL x.data⟩
  refine congrArg String.mk ?_
  generalize hn : normalizeL x.data = n at hchars h1 h2 h3 hchain hstrip
  have s1 : n.map pyLower = n := by
    have h := List.map_congr_left (fun c hc => (hchars c hc).1)
    rw [h, List.map_id']
  have s3 : n.map foldChar = n := by
    have h := List.map_congr_left (fun c hc => (hchars c hc).2.1)
    rw [h, List.map_id']
  have s4 : n.map punctChar = n := by
    have h := List.map_congr_left
      (fun c hc => punctChar_fix c (hchars c hc).2.2)
    rw [h, List.map_id']
  have s5 : collapseL n = n := by
    have hsp : ∀ c ∈ n, isSpaceChar c = true → c = ' ' := by
      intro c hc hs
      rcases (hchars c hc).2.2 with hw | he
      · rw [space_not_word c hs] at hw
        cases hw
      · exact he
    exact (collapseGo_id n hsp hchain).1
  show pyStripL (collapseL (((replaceProb (n.map pyLower)).map foldChar).map
    punctChar)) = n
  rw [s1, replaceProb_id n h1 h2 h3, s3, s4, s5, hstrip]

section EvalTheorems

attribute [local semireducible] Rat.mul Rat.inv Rat.add Rat.sub

set_option maxRecDepth 16000

/-- Claim C6: an empty or whitespace-only question is answered by the fixed
clarification prompt at confidence 0 with source `general`; the result is a
constant, independent of the knowledge base and synonym state, so the
categorizer, expander and scorer are never consulted. -/
theorem blank_input_returns_clarification (kb : Knowledge) (syn : Syn) (q : String)
    (h : q.data.all isSpaceChar = true) :
    process_question kb syn q =
      ⟨some "Haz una pregunta sobre los servicios de la biblioteca.", 0, "general",
       "basic", none⟩ := by
  have hd : q.data.dropWhile isSpaceChar = [] := by
    rw [List.dropWhile_eq_nil_iff]
    intro a ha
    exact List.all_eq_true.mp h a ha
  have hs : pyStripL q.data = [] := by
    rw [pyStripL, hd, List.rdropWhile_nil]
  unfold process_question
  rw [if_pos (Or.inr hs)]

/-- Witness for C6 at the whitespace-only input `"   "`. -/
theorem blank_input_returns_clarification_witness :
    ("   ".data.all isSpaceChar = true) ∧
    process_question kbEmpty synNone "   " =
      ⟨some "Haz una pregunta sobre los servicios de la biblioteca.", 0, "general",
       "basic", none⟩ :=
  ⟨by decide, blank_input_returns_clarification kbEmpty synNone "   " (by decide)⟩

/-- Claim C8 (code bug): `clean_synonyms` does not strip pairings that
relate words of different `exclusive_words` groups.  Loading the synonym
file `{"libro": ["computadora"]}` leaves `libro → computadora` in the index
untouched, although `computadora` is listed among `libro`'s mutually
exclusive words (the `exclusive_words` table is never consulted). -/
theorem clean_synonyms_keeps_cross_category_pairing :
    cleanSynonyms synConflict "libro" = some ["computadora"] ∧
    "computadora" ∈ ((exclusive_words.lookup "libro").getD []) := by
  constructor
  · rfl
  · decide

/-- Counterexample for claim C5: `normalize_text` is not idempotent.  On
`"tómar"` the problematic-synonym substitution runs before accent folding,
so the first pass yields `"tomar"` and only the second pass rewrites it to
`"prestar"`. -/
theorem normalize_not_idempotent_at_tomar :
    normalize_text "tómar" = "tomar" ∧
    normalize_text (normalize_text "tómar") = "prestar" ∧
    normalize_text (normalize_text "tómar") ≠ normalize_text "tómar" := by decide

/-- Counterexample for claim C2: `"computadora libro"` contains the
exclusive keyword `computadora` of `computers`, yet categorization returns
`books` (the earlier category in iteration order) — so containing a
category's exclusive keyword does not by itself force that category. -/
theorem exclusive_keyword_not_sufficient :
    "computadora" ∈ (categoriesList.getD 1 ("", ⟨[], 0, []⟩)).2.exclusivas ∧
    (categoriesList.getD 1 ("", ⟨[], 0, []⟩)).1 = "computers" ∧
    isSub (normalize_text "computadora").data
      (normalize_text "computadora libro").data = true ∧
    categorize_question "computadora libro" ≠ ("computers", 1) ∧
    categorize_question "computadora libro" = ("books", 1) := by decide

/-- Counterexample for claim C1: on `"hola"` with an empty knowledge base
the best match confidence is 0 < 0.25, the answer is indeed a fixed
fallback string, but the returned confidence field is 0.188, not 0.25: the
pinned 0.25 is afterwards multiplied by `0.5 + 0.5 × category_confidence`
(here 0.75, as the category confidence is the default 0.5). -/
theorem fallback_confidence_not_pinned :
    (bestMatch kbEmpty synNone "hola").conf < 1 / 4 ∧
    (process_question kbEmpty synNone "hola").answer =
      some "No he entendido la pregunta, ¿podrías reformularla?." ∧
    "No he entendido la pregunta, ¿podrías reformularla?." ∈ fallbackStrings ∧
    (process_question kbEmpty synNone "hola").confidence = 47 / 250 ∧
    (47 / 250 : ℚ) ≠ 1 / 4 := by decide

/-- Counterexample for claim C7: the retrieval threshold for `cubicles` is
0.4, not 0.35.  On `"cubiculo azul gratis"` against `kbC7` the best
cubicles rule scores 469/1175 ≈ 0.399, strictly above 0.35 — yet the
fallback search in `general` still runs and wins, so the result comes from
`general`. -/
theorem cubicles_score_above_035_not_accepted :
    categorize_question "cubiculo azul gratis" = ("cubicles", 1) ∧
    7 / 20 < (search_in_category kbC7 "cubicles"
      (expand_with_synonyms synNone (normalize_text "cubiculo azul gratis"))).2 ∧
    (search_in_category kbC7 "cubicles"
      (expand_with_synonyms synNone (normalize_text "cubiculo azul gratis"))).2 < 2 / 5 ∧
    (process_question kbC7 synNone "cubiculo azul gratis").source = "general" ∧
    (process_question kbC7 synNone "cubiculo azul gratis").answer = some "GEN" := by decide

/-- Witness for the amended C2: `"quiero una computadora barata"` has the
`computers` exclusive keyword `computadora`, no exclusive keyword of any
other category, and is categorized `("computers", 1)`. -/
theorem exclusive_override_unique_witness :
    ((categoriesList.getD 1 ("", ⟨[], 0, []⟩)) ∈ categoriesList ∧
     (categoriesList.getD 1 ("", ⟨[], 0, []⟩)).2.exclusivas.any (fun palabra =>
       isSub (normalize_text palabra).data
         (normalize_text "quiero una computadora barata").data) = true) ∧
    categorize_question "quiero una computadora barata" = ("computers", 1) :=
  ⟨⟨by decide, by decide⟩,
   exclusive_override_unique "quiero una computadora barata"
     (categoriesList.getD 1 ("", ⟨[], 0, []⟩)) (by decide) (by decide) (by decide)⟩

/-- Witness for C10: `"hay opcion libre"` contains `pc` only inside the
longer word `opcion`, yet is categorized `("computers", 1)`; and
`"texto pc"`, which has exclusive keywords of both `books` and `computers`,
goes to the earlier category `books`. -/
theorem exclusive_override_order_witness :
    (categoriesList = categoriesList.take 1 ++
       (categoriesList.getD 1 ("", ⟨[], 0, []⟩)) :: categoriesList.drop 2 ∧
     (∃ k ∈ (categoriesList.getD 1 ("", ⟨[], 0, []⟩)).2.exclusivas,
       (normalize_text k).data <:+: (normalize_text "hay opcion libre").data)) ∧
    categorize_question "hay opcion libre" = ("computers", 1) ∧
    categorize_question "texto pc" = ("books", 1) :=
  ⟨⟨by decide, by decide⟩,
   exclusive_override_order "hay opcion libre" (categoriesList.take 1)
     (categoriesList.drop 2) (categoriesList.getD 1 ("", ⟨[], 0, []⟩))
     (by decide) (by decide) (by decide),
   exclusive_override_order "texto pc" [] (categoriesList.drop 1)
     (categoriesList.getD 0 ("", ⟨[], 0, []⟩))
     (by decide) (by decide) (by decide)⟩

/-- Witness for the amended C7: against `kbC7w`, whose only cubicles rule
matches `"cubiculo azul gratis"` at score 0.9 > 0.4, the result is that
rule's answer from source `cubicles` at confidence 0.9, with no switch to
`general`. -/
theorem cubicles_threshold_04_witness :
    (¬("cubiculo azul gratis" = "" ∨ pyStripL "cubiculo azul gratis".data = []) ∧
     categorize_question (normalize_text "cubiculo azul gratis") = ("cubicles", 1) ∧
     firstSearch kbC7w synNone "cubiculo azul gratis" = (some "CUB", 9 / 10) ∧
     (2 : ℚ) / 5 < 9 / 10) ∧
    process_question kbC7w synNone "cubiculo azul gratis" =
      ⟨some "CUB", 9 / 10, "cubicles", "basic", some (1, 1)⟩ :=
  ⟨⟨by decide, by decide, by decide, by decide⟩, by
    rw [cubicles_threshold_04 kbC7w synNone "cubiculo azul gratis" 1 "CUB" (9 / 10)
      (by decide) (by decide) (by decide) (by decide)]
    decide⟩

/-- Witness for the amended C1 at `"hola"` with the empty knowledge base:
best confidence 0 < 0.25, fallback answer, returned confidence
`round(0.25 × 0.75, 3) = 0.188 ≤ 0.25`. -/
theorem fallback_pins_quarter_witness :
    (¬("hola" = "" ∨ pyStripL "hola".data = []) ∧
     (bestMatch kbEmpty synNone "hola").conf < 1 / 4) ∧
    ((process_question kbEmpty synNone "hola").answer =
      some (get_fallback_response (bestMatch kbEmpty synNone "hola").source "hola") ∧
     get_fallback_response (bestMatch kbEmpty synNone "hola").source "hola" ∈
       fallbackStrings ∧
     (process_question kbEmpty synNone "hola").confidence =
       pyRound3 (min ((1 / 4) *
         (1 / 2 + (categorize_question (normalize_text "hola")).2 * (1 / 2))) 1) ∧
     (process_question kbEmpty synNone "hola").confidence ≤ 1 / 4) :=
  ⟨⟨by decide, by decide⟩,
   fallback_pins_quarter kbEmpty synNone "hola" (by decide) (by decide)⟩

/-- Witness for the amended C5 at `"hola mundo"`, whose normalization is
free of the problematic words. -/
theorem normalize_idempotent_no_problematic_witness :
    (¬ "conseguir".data <:+: (normalize_text "hola mundo").data ∧
     ¬ "obtener".data <:+: (normalize_text "hola mundo").data ∧
     ¬ "tomar".data <:+: (normalize_text "hola mundo").data) ∧
    normalize_text (normalize_text "hola mundo") = normalize_text "hola mundo" :=
  ⟨⟨by decide, by decide, by decide⟩,
   normalize_idempotent_no_problematic "hola mundo"
     (by decide) (by decide) (by decide)⟩

end EvalTheorems

end Biblio
